import Mathlib

/-!
Shallow embedding of the observable keyed entity collection
(EntityCollection together with its fireChangedEvent delivery loop), of
the transform/pipeline node (ModelExperimentalNode), and of the label
dirty-marking helpers (Label.js), translated from the repository sources,
together with proofs of the specification claims.
-/

set_option maxHeartbeats 1000000

abbrev EntityId := String

/-- Modelled from the spec: julian dates (JulianDate.js is not among the
sources) form a totally ordered time axis; they are embedded as integers,
with lessThan, greaterThan and equals the integer comparisons. -/
abbrev JulianDate := Int

/-- Modelled from the spec: the unbounded-past sentinel
Iso8601.MINIMUM_VALUE (Iso8601.js is not among the sources). -/
def Iso8601MinimumValue : JulianDate := -(2 ^ 62)

/-- Modelled from the spec: the unbounded-future sentinel
Iso8601.MAXIMUM_VALUE. -/
def Iso8601MaximumValue : JulianDate := 2 ^ 62

/-- A time interval with a start and a stop date (TimeInterval.js is not
among the sources; only the start/stop fields are used by the collection
code). -/
structure TimeInterval where
  start : JulianDate
  stop : JulianDate
deriving DecidableEq

/-- An entity as far as the verified collection operations inspect it:
its unique id, its own show flag, and its availability interval. The
`_show` and `availability` fields are modelled from the spec (Entity.js is
not among the sources); every operation below manipulating entities is
translated from the EntityCollection source. -/
structure Entity where
  id : EntityId
  _show : Bool
  availability : Option TimeInterval
deriving DecidableEq

/-- Modelled from the spec: Core/AssociativeArray.js is not among the
sources. A keyed mapping with unique keys preserving insertion order,
embedded as an association list. `set` on an existing key stores the new
value in place (the source implementation moves the entry to the end of
its values array when the value changes; only the internal order of batch
arrays depends on that, and no claim depends on batch order). -/
abbrev AArray := List (EntityId × Entity)

def AArray.contains (a : AArray) (k : EntityId) : Bool :=
  a.any (fun p => p.1 == k)

def AArray.get (a : AArray) (k : EntityId) : Option Entity :=
  (a.find? (fun p => p.1 == k)).map (fun p => p.2)

def AArray.set (a : AArray) (k : EntityId) (v : Entity) : AArray :=
  if AArray.contains a k then a.map (fun p => if p.1 == k then (k, v) else p)
  else a ++ [(k, v)]

/-- remove returns the new array and whether the key was present (the
source remove returns that boolean). -/
def AArray.remove (a : AArray) (k : EntityId) : AArray × Bool :=
  (a.filter (fun p => !(p.1 == k)), AArray.contains a k)

def AArray.values (a : AArray) : List Entity := a.map (fun p => p.2)

def AArray.length (a : AArray) : Nat := List.length a

/-- The mutable state of an EntityCollection: the live entity mapping,
the three staging sets, the suspend counter, the collection show flag and
the two re-entrancy guard flags, exactly the fields the constructor
initializes (the owner reference and the guid are not inspected by any
verified operation and are omitted). -/
structure ECState where
  _entities : AArray
  _addedEntities : AArray
  _removedEntities : AArray
  _changedEntities : AArray
  _suspendCount : Nat
  _show : Bool
  _firing : Bool
  _refire : Bool
deriving DecidableEq

/-- One collectionChanged event payload: the added, removed and changed
snapshot arrays passed to raiseEvent. -/
structure Batch where
  added : List Entity
  removed : List Entity
  changed : List Entity
deriving DecidableEq

/-- The contract-violation errors thrown by the collection (DeveloperError
in the source; the spec calls them DuplicateKeyError and
ImbalancedSuspendError). -/
inductive ECError where
  | duplicateKey : EntityId → ECError
  | imbalancedSuspend : ECError
deriving DecidableEq

/-- A definition-changed signal raised on an entity: the entity id, the
new value and the old value of the isShowing attribute. -/
structure DefSignal where
  entityId : EntityId
  newValue : Bool
  oldValue : Bool
deriving DecidableEq

/-- A mutation a subscriber can perform on the collection during
notification delivery: add an entity, remove an entity by id, or signal
that an entity definition changed. -/
inductive Op where
  | addE : Entity → Op
  | removeById : EntityId → Op
  | defChanged : EntityId → Op
deriving DecidableEq

/-- True when all three staging sets are empty; the source guard before
the delivery loop is the negation
(changed.length !== 0 || added.length !== 0 || removed.length !== 0). -/
def stagingEmpty (s : ECState) : Bool :=
  (AArray.length s._changedEntities == 0) &&
  (AArray.length s._addedEntities == 0) &&
  (AArray.length s._removedEntities == 0)

/-- The three snapshot arrays sliced from the staging sets at the top of
a delivery pass. -/
def snapshotBatch (s : ECState) : Batch :=
  ⟨AArray.values s._addedEntities, AArray.values s._removedEntities,
    AArray.values s._changedEntities⟩

/-- removeAll on the three staging sets at the top of a delivery pass. -/
def clearStaging (s : ECState) : ECState :=
  { s with _addedEntities := [], _removedEntities := [], _changedEntities := [] }

/-- The body of EntityCollection.prototype.add up to but excluding the
final fireChangedEvent call; returns the new state and whether the add
succeeded (the source throws a DeveloperError on a duplicate id before
mutating anything, so the failure case returns the input state).
Subscription of the definitionChanged listener is represented implicitly:
an entity is subscribed exactly while its id is in the live mapping. -/
def addCore (e : Entity) (s : ECState) : ECState × Bool :=
  if AArray.contains s._entities e.id then (s, false)
  else
    let entities := AArray.set s._entities e.id e
    let rm := AArray.remove s._removedEntities e.id
    let added :=
      if rm.2 then s._addedEntities else AArray.set s._addedEntities e.id e
    ({ s with
        _entities := entities
        _removedEntities := rm.1
        _addedEntities := added }, true)

/-- The body of EntityCollection.prototype.removeById up to but excluding
the final fireChangedEvent call; returns the new state and the boolean
result. -/
def removeByIdCore (id : EntityId) (s : ECState) : ECState × Bool :=
  match AArray.get s._entities id with
  | none => (s, false)
  | some e =>
    let entities := (AArray.remove s._entities id).1
    let rmAdded := AArray.remove s._addedEntities id
    if rmAdded.2 then
      ({ s with _entities := entities, _addedEntities := rmAdded.1 }, true)
    else
      ({ s with
          _entities := entities
          _addedEntities := rmAdded.1
          _removedEntities := AArray.set s._removedEntities id e
          _changedEntities := (AArray.remove s._changedEntities id).1 }, true)

/-- The body of EntityCollection.prototype._onEntityDefinitionChanged up
to but excluding the final fireChangedEvent call. -/
def _onEntityDefinitionChanged (e : Entity) (s : ECState) : ECState :=
  if AArray.contains s._addedEntities e.id then s
  else { s with _changedEntities := AArray.set s._changedEntities e.id e }

/-- One subscriber-performed operation applied during notification
delivery. Each successful source operation ends by calling
fireChangedEvent; while delivery is in progress `_firing` is true, so that
call reduces to setting `_refire` and returning (the firing branch of
fireChangedEvent below); the reduction is inlined here to keep the
recursion structural. A defChanged signal reaches the collection handler
only while the entity is subscribed, that is, present in the live
mapping. A duplicate-id add throws in the source before mutating
anything; the model covers listeners whose operations do not throw, so
that call leaves the state unchanged. -/
def deliverOp (s : ECState) (op : Op) : ECState :=
  match op with
  | Op.addE e =>
    let r := addCore e s
    if r.2 then { r.1 with _refire := true } else r.1
  | Op.removeById id =>
    let r := removeByIdCore id s
    if r.2 then { r.1 with _refire := true } else r.1
  | Op.defChanged id =>
    match AArray.get s._entities id with
    | none => s
    | some e => { _onEntityDefinitionChanged e s with _refire := true }

/-- One pass of the delivery loop body acting on the state: clear
`_refire`, clear the three staging sets (the snapshot is taken by the
caller), then deliver the event to the subscribers, whose mutations
during invocation n are the operation list L n. -/
def passState (L : Nat → List Op) (n : Nat) (s : ECState) : ECState :=
  List.foldl deliverOp { clearStaging s with _refire := false } (L n)

/-- The state after k delivery passes starting from invocation counter n. -/
def passIter (L : Nat → List Op) (n : Nat) (s : ECState) : Nat → ECState
  | 0 => s
  | k + 1 => passState L (n + k) (passIter L n s k)

/-- The do/while delivery loop of fireChangedEvent: snapshot the staging
sets, run one pass, and repeat while the pass set `_refire`. The loop is
given fuel; every theorem about it carries a sufficient-fuel hypothesis
under which the fuel never runs out. Returns the final state and the list
of emitted event payloads. -/
def fireLoop (L : Nat → List Op) : Nat → Nat → ECState → ECState × List Batch
  | _, 0, s => (s, [])
  | n, fuel + 1, s =>
    let b := snapshotBatch s
    let s1 := passState L n s
    if s1._refire then
      let r := fireLoop L (n + 1) fuel s1
      (r.1, b :: r.2)
    else (s1, [b])

/-- fireChangedEvent translated from the source: if currently firing, set
`_refire` and return; if not suspended and some staging set is nonempty,
set `_firing`, run the delivery loop, and clear `_firing`. -/
def fireChangedEvent (L : Nat → List Op) (n fuel : Nat) (s : ECState) :
    ECState × List Batch :=
  if s._firing then ({ s with _refire := true }, [])
  else if s._suspendCount = 0 then
    if stagingEmpty s then (s, [])
    else
      let r := fireLoop L n fuel { s with _firing := true }
      ({ r.1 with _firing := false }, r.2)
  else (s, [])

/-- EntityCollection.prototype.add: duplicate-id check (throwing
DeveloperError), staging, then fireChangedEvent. Returns the state, the
emitted batches, and the result. -/
def add (L : Nat → List Op) (n fuel : Nat) (e : Entity) (s : ECState) :
    ECState × List Batch × Except ECError Entity :=
  let r := addCore e s
  if r.2 then
    let f := fireChangedEvent L n fuel r.1
    (f.1, f.2, Except.ok e)
  else (r.1, [], Except.error (ECError.duplicateKey e.id))

/-- EntityCollection.prototype.removeById: staging then fireChangedEvent;
returns false without firing when the id is absent. -/
def removeById (L : Nat → List Op) (n fuel : Nat) (id : EntityId)
    (s : ECState) : ECState × List Batch × Bool :=
  let r := removeByIdCore id s
  if r.2 then
    let f := fireChangedEvent L n fuel r.1
    (f.1, f.2, true)
  else (r.1, [], false)

/-- EntityCollection.prototype.suspendEvents. -/
def suspendEvents (s : ECState) : ECState :=
  { s with _suspendCount := s._suspendCount + 1 }

/-- EntityCollection.prototype.resumeEvents: throws DeveloperError when
the suspend counter is already zero, otherwise decrements it and calls
fireChangedEvent. -/
def resumeEvents (L : Nat → List Op) (n fuel : Nat) (s : ECState) :
    ECState × List Batch × Except ECError Unit :=
  if s._suspendCount = 0 then (s, [], Except.error ECError.imbalancedSuspend)
  else
    let f := fireChangedEvent L n fuel { s with _suspendCount := s._suspendCount - 1 }
    (f.1, f.2, Except.ok ())

/-- Modelled from the spec: the effective visibility of an entity is the
conjunction of the entity own show flag and the collection show flag
(Entity.js isShowing is not among the sources). -/
def isShowing (collectionShow : Bool) (e : Entity) : Bool :=
  e._show && collectionShow

/-- The fireChangedEvent call made at the end of the entity
definitionChanged handler, in a context where the suspend counter is
positive (the show setter suspends before raising any signal): with a
positive suspend counter, fireChangedEvent sets `_refire` when firing and
otherwise does nothing, emitting no batch; this reduction keeps the show
setter non-recursive. -/
def handlerFire (s : ECState) : ECState :=
  if s._firing then { s with _refire := true } else s

/-- One iteration of the second loop of the show setter, acting on an
entity paired with its saved old isShowing value: when the old and the
current effective visibility differ, raise the isShowing
definition-changed signal (running the subscribed collection handler,
whose trailing fireChangedEvent reduces to handlerFire because the setter
holds a suspension). -/
def showStep (acc : ECState × List DefSignal) (p : Entity × Bool) :
    ECState × List DefSignal :=
  if p.2 = isShowing acc.1._show p.1 then acc
  else
    (handlerFire (_onEntityDefinitionChanged p.1 acc.1),
      acc.2 ++ [⟨p.1.id, isShowing acc.1._show p.1, p.2⟩])

/-- The show setter: no-op on an equal value; otherwise suspend, snapshot
each entity isShowing value, apply the new flag, raise an isShowing
definition-changed signal for every entity whose effective visibility
differs (each signal runs the subscribed collection handler), and resume.
Returns the final state, the raised signals, and the batches emitted by
the final resume. -/
def setShow (L : Nat → List Op) (n fuel : Nat) (value : Bool) (s : ECState) :
    ECState × List DefSignal × List Batch :=
  if value = s._show then (s, [], [])
  else
    let s1 := suspendEvents s
    let oldShows := (AArray.values s1._entities).map (fun e => isShowing s1._show e)
    let s2 := { s1 with _show := value }
    let r := ((AArray.values s2._entities).zip oldShows).foldl showStep
      (s2, ([] : List DefSignal))
    let f := resumeEvents L n fuel r.1
    (f.1, r.2, f.2.1)

/-- The loop body of computeAvailability for one entity: skip undefined
availability, tighten the running start when the availability start is
earlier and not the unbounded-past sentinel, then tighten the running
stop when the availability stop is later and not the unbounded-future
sentinel. -/
def availStep (p : JulianDate × JulianDate) (e : Entity) :
    JulianDate × JulianDate :=
  match e.availability with
  | none => p
  | some availability =>
    let p1 :=
      if availability.start < p.1 ∧ availability.start ≠ Iso8601MinimumValue
      then (availability.start, p.2) else p
    if availability.stop > p1.2 ∧ availability.stop ≠ Iso8601MaximumValue
    then (p1.1, availability.stop) else p1

/-- EntityCollection.prototype.computeAvailability: fold the entity
availabilities, ignoring sentinel endpoints, then map the untouched
accumulators back to the unbounded sentinels. -/
def computeAvailability (s : ECState) : TimeInterval :=
  let r := (AArray.values s._entities).foldl availStep
    (Iso8601MaximumValue, Iso8601MinimumValue)
  let startTime := if r.1 = Iso8601MaximumValue then Iso8601MinimumValue else r.1
  let stopTime := if r.2 = Iso8601MinimumValue then Iso8601MaximumValue else r.2
  ⟨startTime, stopTime⟩

/-- The quiescent listener performing no mutation. -/
def L0 : Nat → List Op := fun _ => []

/-! ### ModelExperimentalNode -/

/-- A node pipeline or update stage identifier. -/
inductive Stage where
  | instancingPipelineStage
  | modelMatrixUpdateStage
deriving DecidableEq

/-- The underlying static node description; only the presence of
per-instance data is inspected (defined(node.instances) in the source). -/
structure NodeComponents where
  instances : Bool
deriving DecidableEq

/-- The runtime node state of ModelExperimentalNode. The transform type is
kept abstract as M; Matrix4.multiply is the `mul` parameter and
ModelExperimentalUtility.correctModelMatrix applied with the scene graph
up and forward axes is the `correct` parameter of the operations (both
utilities live outside the sources). -/
structure MENode (M : Type) where
  _node : NodeComponents
  _transform : M
  _transformToRoot : M
  _originalTransform : M
  _instancingNodeTransform : Option M
  _transformDirty : Bool
  pipelineStages : List Stage
  updateStages : List Stage
  _children : List Nat
deriving DecidableEq

/-- ModelExperimentalNode.prototype.configurePipeline: clear and rebuild
both stage lists; append the instancing stage iff per-instance data is
present, then the model-matrix update stage. -/
def configurePipeline {M : Type} (node : MENode M) : MENode M :=
  { node with
      pipelineStages := if node._node.instances then [Stage.instancingPipelineStage] else [],
      updateStages := [Stage.modelMatrixUpdateStage] }

/-- The ModelExperimentalNode constructor: clone the transforms, derive
the instancing transform when the node declares per-instance data, start
clean, and configure the pipeline. -/
def ModelExperimentalNode {M : Type} (mul : M → M → M) (correct : M → M)
    (node : NodeComponents) (transform transformToRoot : M)
    (children : List Nat) : MENode M :=
  let instancingNodeTransform :=
    if node.instances then some (correct (mul transformToRoot transform)) else none
  configurePipeline
    { _node := node
      _transform := transform
      _transformToRoot := transformToRoot
      _originalTransform := transform
      _instancingNodeTransform := instancingNodeTransform
      _transformDirty := false
      pipelineStages := []
      updateStages := []
      _children := children }

/-- The transform setter: no-op when Matrix4.equals holds; otherwise mark
dirty, store the new transform, and, only if the node carries
per-instance data, recompute the instancing transform as the
axis-corrected product of transformToRoot and the new transform. -/
def setTransform {M : Type} [DecidableEq M] (mul : M → M → M)
    (correct : M → M) (node : MENode M) (value : M) : MENode M :=
  if node._transform = value then node
  else
    let node1 := { node with _transformDirty := true, _transform := value }
    if node1._node.instances then
      { node1 with
          _instancingNodeTransform :=
            some (correct (mul node1._transformToRoot node1._transform)) }
    else node1

/-- The instancing invariant of the spec: the instancing transform is
present exactly when the node declares per-instance data, and then equals
the axis-corrected product of transformToRoot and the local transform. -/
def InstInv {M : Type} (mul : M → M → M) (correct : M → M)
    (node : MENode M) : Prop :=
  node._instancingNodeTransform =
    if node._node.instances then
      some (correct (mul node._transformToRoot node._transform))
    else none

/-! ### Label dirty marking -/

/-- The label state inspected by the dirty-marking helpers: the two dirty
flags and, for the owning collection, the number of occurrences of this
label in its _labelsToUpdate array (a push appends one occurrence). -/
structure LabelState where
  _rebindAllGlyphs : Bool
  _repositionAllGlyphs : Bool
  _labelsToUpdate : Nat
deriving DecidableEq

/-- Label.js rebindAllGlyphs: push the label onto the pending-update list
only if neither dirty flag is set, then set the rebind flag. -/
def rebindAllGlyphs (label : LabelState) : LabelState :=
  let label1 :=
    if !label._rebindAllGlyphs && !label._repositionAllGlyphs then
      { label with _labelsToUpdate := label._labelsToUpdate + 1 }
    else label
  { label1 with _rebindAllGlyphs := true }

/-- Label.js repositionAllGlyphs: push the label onto the pending-update
list only if neither dirty flag is set, then set the reposition flag. -/
def repositionAllGlyphs (label : LabelState) : LabelState :=
  let label1 :=
    if !label._rebindAllGlyphs && !label._repositionAllGlyphs then
      { label with _labelsToUpdate := label._labelsToUpdate + 1 }
    else label
  { label1 with _repositionAllGlyphs := true }

/-- A dirty-marking call: one of the two helpers. -/
inductive MarkOp where
  | rebind
  | reposition
deriving DecidableEq

/-- Apply a sequence of dirty-marking calls to a label. -/
def applyMarks (ops : List MarkOp) (label : LabelState) : LabelState :=
  ops.foldl
    (fun l op =>
      match op with
      | MarkOp.rebind => rebindAllGlyphs l
      | MarkOp.reposition => repositionAllGlyphs l)
    label

/-! ### Basic lemmas about the delivery machinery -/

lemma fireChangedEvent_of_firing (L : Nat → List Op) (n fuel : Nat)
    (s : ECState) (h : s._firing = true) :
    fireChangedEvent L n fuel s = ({ s with _refire := true }, []) := by
  simp [fireChangedEvent, h]

lemma fireChangedEvent_of_suspended (L : Nat → List Op) (n fuel : Nat)
    (s : ECState) (h : s._firing = false) (h2 : s._suspendCount ≠ 0) :
    fireChangedEvent L n fuel s = (s, []) := by
  simp [fireChangedEvent, h, h2]

lemma addCore_suspendCount (e : Entity) (s : ECState) :
    (addCore e s).1._suspendCount = s._suspendCount := by
  unfold addCore; split <;> rfl

lemma removeByIdCore_suspendCount (id : EntityId) (s : ECState) :
    (removeByIdCore id s).1._suspendCount = s._suspendCount := by
  unfold removeByIdCore
  cases AArray.get s._entities id with
  | none => rfl
  | some e => dsimp only; split <;> rfl

lemma onDefChanged_suspendCount (e : Entity) (s : ECState) :
    (_onEntityDefinitionChanged e s)._suspendCount = s._suspendCount := by
  unfold _onEntityDefinitionChanged; split <;> rfl

lemma deliverOp_suspendCount (s : ECState) (op : Op) :
    (deliverOp s op)._suspendCount = s._suspendCount := by
  cases op with
  | addE e =>
    unfold deliverOp; dsimp only
    split
    · exact addCore_suspendCount e s
    · exact addCore_suspendCount e s
  | removeById id =>
    unfold deliverOp; dsimp only
    split
    · exact removeByIdCore_suspendCount id s
    · exact removeByIdCore_suspendCount id s
  | defChanged id =>
    unfold deliverOp; dsimp only
    cases AArray.get s._entities id with
    | none => rfl
    | some e => exact onDefChanged_suspendCount e s

lemma foldl_deliverOp_suspendCount (ops : List Op) (s : ECState) :
    (List.foldl deliverOp s ops)._suspendCount = s._suspendCount := by
  induction ops generalizing s with
  | nil => rfl
  | cons op rest ih => rw [List.foldl_cons, ih, deliverOp_suspendCount]

lemma passState_suspendCount (L : Nat → List Op) (n : Nat) (s : ECState) :
    (passState L n s)._suspendCount = s._suspendCount := by
  unfold passState; rw [foldl_deliverOp_suspendCount]; rfl

lemma fireLoop_suspendCount (L : Nat → List Op) :
    ∀ (fuel n : Nat) (s : ECState),
      (fireLoop L n fuel s).1._suspendCount = s._suspendCount := by
  intro fuel
  induction fuel with
  | zero => intro n s; rfl
  | succ f ih =>
    intro n s
    unfold fireLoop; dsimp only
    split
    · rw [ih, passState_suspendCount]
    · rw [passState_suspendCount]

lemma fireChangedEvent_suspendCount (L : Nat → List Op) (n fuel : Nat)
    (s : ECState) :
    (fireChangedEvent L n fuel s).1._suspendCount = s._suspendCount := by
  unfold fireChangedEvent
  split
  · rfl
  · split
    · split
      · rfl
      · dsimp only; rw [fireLoop_suspendCount]
    · rfl

lemma fireLoop_head (L : Nat → List Op) (n f : Nat) (s : ECState) :
    (fireLoop L n (f + 1) s).2.head? = some (snapshotBatch s) := by
  unfold fireLoop; dsimp only; split <;> rfl

lemma fireChangedEvent_head_eq (L : Nat → List Op) (n f : Nat) (s : ECState)
    (h1 : s._firing = false) (h2 : s._suspendCount = 0)
    (h3 : stagingEmpty s = false) :
    (fireChangedEvent L n (f + 1) s).2.head? = some (snapshotBatch s) := by
  simp only [fireChangedEvent, h1, h2, h3, Bool.false_eq_true, if_false,
    if_true, ite_false, ite_true, reduceIte]
  rw [fireLoop_head]
  rfl

lemma fireChangedEvent_of_empty (L : Nat → List Op) (n fuel : Nat)
    (s : ECState) (h1 : s._firing = false) (h2 : stagingEmpty s = true) :
    fireChangedEvent L n fuel s = (s, []) := by
  by_cases hc : s._suspendCount = 0
  · simp [fireChangedEvent, h1, hc, h2]
  · simp [fireChangedEvent, h1, hc]

lemma resumeEvents_of_pos (L : Nat → List Op) (n fuel : Nat) (s : ECState)
    (h : s._suspendCount ≠ 0) :
    resumeEvents L n fuel s =
      ((fireChangedEvent L n fuel { s with _suspendCount := s._suspendCount - 1 }).1,
        (fireChangedEvent L n fuel { s with _suspendCount := s._suspendCount - 1 }).2,
        Except.ok ()) := by
  simp [resumeEvents, h]

lemma fireChangedEvent_head (L : Nat → List Op) (n fuel : Nat) (s : ECState)
    (b : Batch) (h : (fireChangedEvent L n fuel s).2.head? = some b) :
    b = snapshotBatch s := by
  unfold fireChangedEvent at h
  split at h
  · simp at h
  · split at h
    · split at h
      · simp at h
      · dsimp only at h
        cases fuel with
        | zero => simp [fireLoop] at h
        | succ f =>
          rw [fireLoop_head] at h
          have hb : b = snapshotBatch { s with _firing := true } := by
            injection h with h; exact h.symm
          rw [hb]; simp [snapshotBatch]
    · simp at h

/-! ### C2: duplicate add -/

/-- C2: for every collection and every entity, add with an already
present id fails with the duplicate-key error and leaves the collection
state (the entity mapping and all three staging sets) unchanged: the
returned state is exactly the input state, no batch is emitted, and the
result is the DuplicateKeyError. -/
theorem c2_add_duplicate (L : Nat → List Op) (n fuel : Nat) (e : Entity)
    (s : ECState) (h : AArray.contains s._entities e.id = true) :
    add L n fuel e s = (s, [], Except.error (ECError.duplicateKey e.id)) := by
  simp [add, addCore, h]

def wE : Entity := ⟨"a", true, none⟩

def wState : ECState := ⟨[("a", wE)], [], [], [], 0, true, false, false⟩

/-- Witness for C2 at a concrete collection already holding id "a". -/
theorem c2_add_duplicate_witness :
    add L0 0 1 wE wState = (wState, [], Except.error (ECError.duplicateKey wE.id)) :=
  c2_add_duplicate L0 0 1 wE wState (by decide)

/-! ### C5: resumeEvents -/

/-- C5: resumeEvents with a zero suspend counter fails with the
imbalanced-suspend error leaving the state unchanged; otherwise it
decrements the counter, and when the counter returns to zero (counter was
one) with pending staged changes and no delivery in progress, pending
delivery runs: the first emitted batch is the snapshot of the staging
sets. -/
theorem c5_resumeEvents (L : Nat → List Op) (n fuel : Nat) (s : ECState) :
    (s._suspendCount = 0 →
      resumeEvents L n fuel s = (s, [], Except.error ECError.imbalancedSuspend)) ∧
    (0 < s._suspendCount →
      (resumeEvents L n fuel s).2.2 = Except.ok () ∧
      (resumeEvents L n fuel s).1._suspendCount = s._suspendCount - 1 ∧
      (s._suspendCount = 1 → s._firing = false → stagingEmpty s = false →
        0 < fuel →
        (resumeEvents L n fuel s).2.1.head? = some (snapshotBatch s))) := by
  constructor
  · intro h; simp [resumeEvents, h]
  · intro h
    have hne : s._suspendCount ≠ 0 := by omega
    refine ⟨by simp [resumeEvents, hne], ?_, ?_⟩
    · simp [resumeEvents, hne, fireChangedEvent_suspendCount]
    · intro h1 h2 h3 h4
      cases fuel with
      | zero => omega
      | succ f =>
        rw [resumeEvents_of_pos L n (f + 1) s hne]
        exact fireChangedEvent_head_eq L n f
          { s with _suspendCount := s._suspendCount - 1 } h2
          (show s._suspendCount - 1 = 0 by omega) h3

def wSuspended : ECState := ⟨[("a", wE)], [("a", wE)], [], [], 1, true, false, false⟩

/-- Witness for C5: a zero-counter collection errors; a counter-one
collection with a staged add flushes its snapshot on resume. -/
theorem c5_resumeEvents_witness :
    resumeEvents L0 0 1 wState = (wState, [], Except.error ECError.imbalancedSuspend) ∧
    (resumeEvents L0 0 1 wSuspended).2.1.head? = some (snapshotBatch wSuspended) :=
  ⟨(c5_resumeEvents L0 0 1 wState).1 (by decide),
    ((c5_resumeEvents L0 0 1 wSuspended).2 (by decide)).2.2 (by decide) (by decide)
      (by decide) (by decide)⟩

/-! ### C9: no empty batch from a top-level flush -/

/-- C9: when no delivery is in progress and all three staging sets are
empty, fireChangedEvent raises no collection-changed event at all and
leaves the state unchanged; in particular a resumeEvents call that brings
the suspend count from one to zero with empty staging emits no batch. -/
theorem c9_no_empty_batch (L : Nat → List Op) (n fuel : Nat) (s : ECState) :
    (s._firing = false → stagingEmpty s = true →
      fireChangedEvent L n fuel s = (s, [])) ∧
    (s._firing = false → stagingEmpty s = true → s._suspendCount = 1 →
      resumeEvents L n fuel s = ({ s with _suspendCount := 0 }, [], Except.ok ())) := by
  constructor
  · intro h1 h2
    exact fireChangedEvent_of_empty L n fuel s h1 h2
  · intro h1 h2 h3
    have hne : s._suspendCount ≠ 0 := by omega
    rw [resumeEvents_of_pos L n fuel s hne,
      fireChangedEvent_of_empty L n fuel
        { s with _suspendCount := s._suspendCount - 1 } h1 h2]
    have hz : s._suspendCount - 1 = 0 := by omega
    rw [hz]

def wSuspendedEmpty : ECState := ⟨[("a", wE)], [], [], [], 1, true, false, false⟩

/-- Witness for C9: a suspended collection with empty staging resumes to
zero without emitting any batch. -/
theorem c9_no_empty_batch_witness :
    resumeEvents L0 0 1 wSuspendedEmpty =
      ({ wSuspendedEmpty with _suspendCount := 0 }, [], Except.ok ()) :=
  (c9_no_empty_batch L0 0 1 wSuspendedEmpty).2 (by decide) (by decide) (by decide)

/-! ### C7 and C8: ModelExperimentalNode transform -/

lemma setTransform_transform_eq {M : Type} [DecidableEq M] (mul : M → M → M)
    (correct : M → M) (nd : MENode M) (v : M) :
    (setTransform mul correct nd v)._transform = v := by
  unfold setTransform
  split
  · next h => exact h
  · dsimp only; split <;> rfl

lemma setTransform_noop {M : Type} [DecidableEq M] (mul : M → M → M)
    (correct : M → M) (nd : MENode M) (v : M) (h : nd._transform = v) :
    setTransform mul correct nd v = nd := by
  unfold setTransform
  rw [if_pos h]

/-- C7: the instancing invariant holds at construction, is preserved by
every localTransform write, and implies that the instancing transform is
defined exactly when the node geometry declares per-instance data, in
which case it is the axis-corrected product of transformToRoot and the
local transform. -/
theorem c7_instancing_invariant {M : Type} [DecidableEq M]
    (mul : M → M → M) (correct : M → M) (node : NodeComponents)
    (t r : M) (ch : List Nat) (nd : MENode M) (v : M) :
    InstInv mul correct (ModelExperimentalNode mul correct node t r ch) ∧
    (InstInv mul correct nd → InstInv mul correct (setTransform mul correct nd v)) ∧
    (InstInv mul correct nd →
      nd._instancingNodeTransform.isSome = nd._node.instances) := by
  refine ⟨?_, ?_, ?_⟩
  · unfold InstInv ModelExperimentalNode configurePipeline
    dsimp only
  · intro h
    unfold InstInv at h ⊢
    unfold setTransform
    split
    · exact h
    · dsimp only
      split
      · rfl
      · next hi =>
        rw [Bool.not_eq_true] at hi
        rw [hi] at h
        simpa [hi] using h
  · intro h
    unfold InstInv at h
    rw [h]
    cases hi : nd._node.instances <;> simp [hi]

/-- Witness for C7 with integer transforms: the invariant holds for a
freshly constructed instanced node and after a transform write. -/
theorem c7_instancing_invariant_witness :
    InstInv Int.mul (fun m => m + 1)
      (ModelExperimentalNode Int.mul (fun m => m + 1) ⟨true⟩ 2 3 []) ∧
    InstInv Int.mul (fun m => m + 1)
      (setTransform Int.mul (fun m => m + 1)
        (ModelExperimentalNode Int.mul (fun m => m + 1) ⟨true⟩ 2 3 []) 5) := by
  have h := c7_instancing_invariant Int.mul (fun m => m + 1) ⟨true⟩ 2 3 []
    (ModelExperimentalNode Int.mul (fun m => m + 1) ⟨true⟩ 2 3 []) 5
  exact ⟨h.1, h.2.1 h.1⟩

/-- C8: writing a localTransform value equal to the current one is a
no-op (the node, hence its dirty flag, stored transform and instancing
transform, is unchanged), and a repeated write of the same value after
any write is also a no-op, so no second dirty transition occurs. -/
theorem c8_transform_noop {M : Type} [DecidableEq M] (mul : M → M → M)
    (correct : M → M) (nd : MENode M) (v : M) :
    (nd._transform = v → setTransform mul correct nd v = nd) ∧
    setTransform mul correct (setTransform mul correct nd v) v =
      setTransform mul correct nd v := by
  refine ⟨fun h => setTransform_noop mul correct nd v h, ?_⟩
  exact setTransform_noop mul correct (setTransform mul correct nd v) v
    (setTransform_transform_eq mul correct nd v)

/-- Witness for C8 with integer transforms at a concrete node. -/
theorem c8_transform_noop_witness :
    setTransform Int.mul (fun m => m + 1)
      (ModelExperimentalNode Int.mul (fun m => m + 1) ⟨false⟩ 2 3 []) 2 =
      ModelExperimentalNode Int.mul (fun m => m + 1) ⟨false⟩ 2 3 [] ∧
    setTransform Int.mul (fun m => m + 1)
      (setTransform Int.mul (fun m => m + 1)
        (ModelExperimentalNode Int.mul (fun m => m + 1) ⟨false⟩ 2 3 []) 7) 7 =
      setTransform Int.mul (fun m => m + 1)
        (ModelExperimentalNode Int.mul (fun m => m + 1) ⟨false⟩ 2 3 []) 7 :=
  ⟨(c8_transform_noop Int.mul (fun m => m + 1)
      (ModelExperimentalNode Int.mul (fun m => m + 1) ⟨false⟩ 2 3 []) 2).1 (by decide),
    (c8_transform_noop Int.mul (fun m => m + 1)
      (ModelExperimentalNode Int.mul (fun m => m + 1) ⟨false⟩ 2 3 []) 7).2⟩

/-! ### C10: label dirty marking -/

lemma rebindAllGlyphs_dirty (l : LabelState)
    (h : (l._rebindAllGlyphs || l._repositionAllGlyphs) = true) :
    (rebindAllGlyphs l)._labelsToUpdate = l._labelsToUpdate := by
  unfold rebindAllGlyphs
  rcases Bool.or_eq_true_iff.mp h with h1 | h1 <;> simp [h1]

lemma repositionAllGlyphs_dirty (l : LabelState)
    (h : (l._rebindAllGlyphs || l._repositionAllGlyphs) = true) :
    (repositionAllGlyphs l)._labelsToUpdate = l._labelsToUpdate := by
  unfold repositionAllGlyphs
  rcases Bool.or_eq_true_iff.mp h with h1 | h1 <;> simp [h1]

lemma rebindAllGlyphs_dirty_stays (l : LabelState)
    (h : (l._rebindAllGlyphs || l._repositionAllGlyphs) = true) :
    ((rebindAllGlyphs l)._rebindAllGlyphs || (rebindAllGlyphs l)._repositionAllGlyphs) = true := by
  unfold rebindAllGlyphs
  rcases Bool.or_eq_true_iff.mp h with h1 | h1 <;> simp [h1]

lemma repositionAllGlyphs_dirty_stays (l : LabelState)
    (h : (l._rebindAllGlyphs || l._repositionAllGlyphs) = true) :
    ((repositionAllGlyphs l)._rebindAllGlyphs || (repositionAllGlyphs l)._repositionAllGlyphs) = true := by
  unfold repositionAllGlyphs
  rcases Bool.or_eq_true_iff.mp h with h1 | h1 <;> simp [h1]

lemma applyMarks_dirty (ops : List MarkOp) (l : LabelState)
    (h : (l._rebindAllGlyphs || l._repositionAllGlyphs) = true) :
    (applyMarks ops l)._labelsToUpdate = l._labelsToUpdate := by
  induction ops generalizing l with
  | nil => rfl
  | cons op rest ih =>
    cases op with
    | rebind =>
      show (applyMarks rest (rebindAllGlyphs l))._labelsToUpdate = _
      rw [ih (rebindAllGlyphs l) (rebindAllGlyphs_dirty_stays l h),
        rebindAllGlyphs_dirty l h]
    | reposition =>
      show (applyMarks rest (repositionAllGlyphs l))._labelsToUpdate = _
      rw [ih (repositionAllGlyphs l) (repositionAllGlyphs_dirty_stays l h),
        repositionAllGlyphs_dirty l h]

/-- C10: a label is pushed onto the pending-update list only on the
transition from clean to dirty: a dirty-marking call on an already dirty
label (either flag set) sets its flag without pushing; on a clean label it
pushes once; and any nonempty sequence of dirty-marking calls starting
from a clean label pushes the label exactly once. -/
theorem c10_label_push_once (l : LabelState) (ops : List MarkOp) :
    ((l._rebindAllGlyphs || l._repositionAllGlyphs) = true →
      (rebindAllGlyphs l)._labelsToUpdate = l._labelsToUpdate ∧
      (repositionAllGlyphs l)._labelsToUpdate = l._labelsToUpdate) ∧
    ((l._rebindAllGlyphs || l._repositionAllGlyphs) = false →
      (rebindAllGlyphs l)._labelsToUpdate = l._labelsToUpdate + 1 ∧
      (repositionAllGlyphs l)._labelsToUpdate = l._labelsToUpdate + 1) ∧
    ((l._rebindAllGlyphs || l._repositionAllGlyphs) = false → ops ≠ [] →
      (applyMarks ops l)._labelsToUpdate = l._labelsToUpdate + 1) := by
  have hclean : (l._rebindAllGlyphs || l._repositionAllGlyphs) = false →
      l._rebindAllGlyphs = false ∧ l._repositionAllGlyphs = false := by
    intro h; exact ⟨by revert h; cases l._rebindAllGlyphs <;> simp,
      by revert h; cases l._repositionAllGlyphs <;> simp⟩
  refine ⟨fun h => ⟨rebindAllGlyphs_dirty l h, repositionAllGlyphs_dirty l h⟩,
    fun h => ?_, fun h hops => ?_⟩
  · obtain ⟨h1, h2⟩ := hclean h
    constructor <;> simp [rebindAllGlyphs, repositionAllGlyphs, h1, h2]
  · obtain ⟨h1, h2⟩ := hclean h
    cases ops with
    | nil => exact absurd rfl hops
    | cons op rest =>
      cases op with
      | rebind =>
        show (applyMarks rest (rebindAllGlyphs l))._labelsToUpdate = _
        rw [applyMarks_dirty rest (rebindAllGlyphs l)
          (by simp [rebindAllGlyphs, h1, h2])]
        simp [rebindAllGlyphs, h1, h2]
      | reposition =>
        show (applyMarks rest (repositionAllGlyphs l))._labelsToUpdate = _
        rw [applyMarks_dirty rest (repositionAllGlyphs l)
          (by simp [repositionAllGlyphs, h1, h2])]
        simp [repositionAllGlyphs, h1, h2]

/-- Witness for C10: a clean label marked three times is pushed exactly
once. -/
theorem c10_label_push_once_witness :
    (applyMarks [MarkOp.rebind, MarkOp.rebind, MarkOp.reposition]
      ⟨false, false, 0⟩)._labelsToUpdate = 0 + 1 :=
  (c10_label_push_once ⟨false, false, 0⟩
    [MarkOp.rebind, MarkOp.rebind, MarkOp.reposition]).2.2 (by decide) (by decide)

/-! ### C1: the delivery loop -/

lemma addCore_fail (e : Entity) (s : ECState) (h : (addCore e s).2 = false) :
    addCore e s = (s, false) := by
  unfold addCore at h ⊢
  split at h
  · next hc => rw [if_pos hc]
  · simp at h

lemma removeByIdCore_fail (id : EntityId) (s : ECState)
    (h : (removeByIdCore id s).2 = false) :
    removeByIdCore id s = (s, false) := by
  unfold removeByIdCore at h ⊢
  cases hg : AArray.get s._entities id with
  | none => rfl
  | some e => rw [hg] at h; dsimp only at h; split at h <;> simp at h

lemma deliverOp_refire_true (s : ECState) (op : Op) (h : s._refire = true) :
    (deliverOp s op)._refire = true := by
  cases op with
  | addE e =>
    unfold deliverOp; dsimp only
    split
    · rfl
    · next h2 =>
      have hf : (addCore e s).2 = false := by
        revert h2; cases (addCore e s).2 <;> simp
      rw [addCore_fail e s hf]; exact h
  | removeById id =>
    unfold deliverOp; dsimp only
    split
    · rfl
    · next h2 =>
      have hf : (removeByIdCore id s).2 = false := by
        revert h2; cases (removeByIdCore id s).2 <;> simp
      rw [removeByIdCore_fail id s hf]; exact h
  | defChanged id =>
    unfold deliverOp; dsimp only
    cases AArray.get s._entities id with
    | none => exact h
    | some e => rfl

lemma foldl_deliverOp_refire_true (ops : List Op) (s : ECState)
    (h : s._refire = true) :
    (List.foldl deliverOp s ops)._refire = true := by
  induction ops generalizing s with
  | nil => exact h
  | cons op rest ih =>
    rw [List.foldl_cons]
    exact ih (deliverOp s op) (deliverOp_refire_true s op h)

lemma deliverOp_of_refire_false (s : ECState) (op : Op)
    (h : (deliverOp s op)._refire = false) : deliverOp s op = s := by
  cases op with
  | addE e =>
    unfold deliverOp at h ⊢; dsimp only at h ⊢
    split at h
    · simp at h
    · next h2 =>
      have hf : (addCore e s).2 = false := by
        revert h2; cases (addCore e s).2 <;> simp
      rw [if_neg (by rw [hf]; exact Bool.false_ne_true), addCore_fail e s hf]
  | removeById id =>
    unfold deliverOp at h ⊢; dsimp only at h ⊢
    split at h
    · simp at h
    · next h2 =>
      have hf : (removeByIdCore id s).2 = false := by
        revert h2; cases (removeByIdCore id s).2 <;> simp
      rw [if_neg (by rw [hf]; exact Bool.false_ne_true),
        removeByIdCore_fail id s hf]
  | defChanged id =>
    unfold deliverOp at h ⊢; dsimp only at h ⊢
    cases hg : AArray.get s._entities id with
    | none => rfl
    | some e => rw [hg] at h; simp at h

lemma foldl_deliverOp_of_refire_false (ops : List Op) (s : ECState)
    (h : (List.foldl deliverOp s ops)._refire = false) :
    List.foldl deliverOp s ops = s := by
  induction ops generalizing s with
  | nil => rfl
  | cons op rest ih =>
    rw [List.foldl_cons] at h ⊢
    by_cases hd : (deliverOp s op)._refire = true
    · rw [foldl_deliverOp_refire_true rest (deliverOp s op) hd] at h
      simp at h
    · have hd2 : (deliverOp s op)._refire = false := by
        revert hd; cases (deliverOp s op)._refire <;> simp
      rw [deliverOp_of_refire_false s op hd2] at h ⊢
      exact ih s h

lemma passState_of_refire_false (L : Nat → List Op) (n : Nat) (s : ECState)
    (h : (passState L n s)._refire = false) :
    passState L n s = { clearStaging s with _refire := false } := by
  unfold passState at h ⊢
  exact foldl_deliverOp_of_refire_false _ _ h

lemma passState_stagingEmpty (L : Nat → List Op) (n : Nat) (s : ECState)
    (h : (passState L n s)._refire = false) :
    stagingEmpty (passState L n s) = true := by
  rw [passState_of_refire_false L n s h]; rfl

lemma passState_of_nil (L : Nat → List Op) (n : Nat) (s : ECState)
    (h : L n = []) : (passState L n s)._refire = false := by
  unfold passState; rw [h]; rfl

lemma passIter_shift (L : Nat → List Op) (n : Nat) (s : ECState) :
    ∀ k, passIter L (n + 1) (passState L n s) k = passIter L n s (k + 1) := by
  intro k
  induction k with
  | zero => rfl
  | succ k ih =>
    show passState L (n + 1 + k) (passIter L (n + 1) (passState L n s) k) =
      passState L (n + (k + 1)) (passIter L n s (k + 1))
    rw [ih]
    congr 1
    omega

lemma fireLoop_eq (L : Nat → List Op) :
    ∀ (m fuel n : Nat) (s : ECState),
      (∀ k, k < m → (passIter L n s (k + 1))._refire = true) →
      (passIter L n s (m + 1))._refire = false →
      m < fuel →
      fireLoop L n fuel s =
        (passIter L n s (m + 1),
          (List.range (m + 1)).map (fun k => snapshotBatch (passIter L n s k))) := by
  intro m
  induction m with
  | zero =>
    intro fuel n s _ hstop hfuel
    cases fuel with
    | zero => omega
    | succ f =>
      unfold fireLoop
      dsimp only
      have h1 : (passState L n s)._refire = false := hstop
      rw [if_neg (by rw [h1]; exact Bool.false_ne_true)]
      simp only [List.range_succ, List.range_zero, List.nil_append,
        List.map_cons, List.map_nil]
      rfl
  | succ m ih =>
    intro fuel n s hlt hstop hfuel
    cases fuel with
    | zero => omega
    | succ f =>
      unfold fireLoop
      dsimp only
      have h1 : (passState L n s)._refire = true := hlt 0 (by omega)
      rw [if_pos h1]
      have ihap := ih f (n + 1) (passState L n s)
        (fun k hk => by
          rw [passIter_shift L n s (k + 1)]
          exact hlt (k + 1) (by omega))
        (by rw [passIter_shift L n s (m + 1)]; exact hstop)
        (by omega)
      rw [ihap]
      dsimp only
      congr 1
      · rw [passIter_shift L n s (m + 1)]
      · conv_rhs => rw [List.range_succ_eq_map, List.map_cons, List.map_map]
        congr 1
        exact List.map_congr_left (fun k _ => by
          show snapshotBatch (passIter L (n + 1) (passState L n s) k) = _
          rw [passIter_shift L n s k]
          rfl)

lemma exists_stop (L : Nat → List Op) (N n : Nat)
    (hq : ∀ k, N ≤ k → L k = []) (s : ECState) :
    ∃ m, m ≤ N - n ∧
      (∀ k, k < m → (passIter L n s (k + 1))._refire = true) ∧
      (passIter L n s (m + 1))._refire = false := by
  have hP : ∃ k, (passIter L n s (k + 1))._refire = false := by
    refine ⟨N - n, ?_⟩
    show (passState L (n + (N - n)) (passIter L n s (N - n)))._refire = false
    exact passState_of_nil L (n + (N - n)) _ (hq (n + (N - n)) (by omega))
  refine ⟨Nat.find hP, Nat.find_min' hP ?_, ?_, Nat.find_spec hP⟩
  · show (passIter L n s (N - n + 1))._refire = false
    show (passState L (n + (N - n)) (passIter L n s (N - n)))._refire = false
    exact passState_of_nil L (n + (N - n)) _ (hq (n + (N - n)) (by omega))
  · intro k hk
    have := Nat.find_min hP hk
    revert this
    cases (passIter L n s (k + 1))._refire <;> simp

/-- C1: the notification delivery algorithm. If a delivery is in
progress, a nested fire only sets the refire flag and returns; if the
suspend count is positive, nothing is delivered; otherwise the loop runs:
batch 0 is the snapshot of the staging sets at entry, and, because every
pass first clears the staging sets and then applies the subscriber
mutations of that pass, batch k+1 is exactly the staging produced by the
mutations performed during delivery of batch k (passIter applies
passState, which snapshots after a clear) — so each mutation performed
during delivery appears in exactly one subsequent batch of the same
top-level call, never lost and never duplicated. The loop terminates at
the first pass that sets no refire (index m, reached once the subscriber
mutations stop), and at that point the staging sets are empty. -/
theorem c1_fire_delivery (L : Nat → List Op) (n fuel N : Nat) (s : ECState)
    (hq : ∀ k, N ≤ k → L k = []) (hfuel : N - n < fuel) :
    (s._firing = true →
      fireChangedEvent L n fuel s = ({ s with _refire := true }, [])) ∧
    (s._firing = false → s._suspendCount ≠ 0 →
      fireChangedEvent L n fuel s = (s, [])) ∧
    (s._firing = false → s._suspendCount = 0 → stagingEmpty s = false →
      ∃ m, m ≤ N - n ∧
        fireChangedEvent L n fuel s =
          ({ passIter L n { s with _firing := true } (m + 1) with _firing := false },
            (List.range (m + 1)).map
              (fun k => snapshotBatch (passIter L n { s with _firing := true } k))) ∧
        (∀ k, k < m →
          (passIter L n { s with _firing := true } (k + 1))._refire = true) ∧
        (passIter L n { s with _firing := true } (m + 1))._refire = false ∧
        stagingEmpty (passIter L n { s with _firing := true } (m + 1)) = true) := by
  refine ⟨fun h => fireChangedEvent_of_firing L n fuel s h,
    fun h1 h2 => fireChangedEvent_of_suspended L n fuel s h1 h2, ?_⟩
  intro h1 h2 h3
  obtain ⟨m, hm, hlt, hstop⟩ := exists_stop L N n hq { s with _firing := true }
  refine ⟨m, hm, ?_, hlt, hstop, ?_⟩
  · unfold fireChangedEvent
    rw [if_neg (by rw [h1]; exact Bool.false_ne_true), if_pos h2,
      if_neg (by rw [h3]; exact Bool.false_ne_true)]
    dsimp only
    rw [fireLoop_eq L m fuel n { s with _firing := true } hlt hstop (by omega)]
  · show stagingEmpty
      (passState L (n + m) (passIter L n { s with _firing := true } m)) = true
    exact passState_stagingEmpty L (n + m) _ hstop

def wX : Entity := ⟨"x", true, none⟩

def wY : Entity := ⟨"y", true, none⟩

/-- A subscriber that adds entity y while the first batch is delivered
and then stays quiet. -/
def wL1 : Nat → List Op := fun k => if k = 0 then [Op.addE wY] else []

def wFire : ECState := ⟨[("x", wX)], [("x", wX)], [], [], 0, true, false, false⟩

/-- Witness for C1: a collection with a staged add of x, delivered to a
subscriber that re-entrantly adds y; the loop emits the x batch, then the
y batch, and terminates with empty staging. -/
theorem c1_fire_delivery_witness :
    ∃ m, m ≤ 1 - 0 ∧
      fireChangedEvent wL1 0 2 wFire =
        ({ passIter wL1 0 { wFire with _firing := true } (m + 1) with _firing := false },
          (List.range (m + 1)).map
            (fun k => snapshotBatch (passIter wL1 0 { wFire with _firing := true } k))) ∧
      (∀ k, k < m →
        (passIter wL1 0 { wFire with _firing := true } (k + 1))._refire = true) ∧
      (passIter wL1 0 { wFire with _firing := true } (m + 1))._refire = false ∧
      stagingEmpty (passIter wL1 0 { wFire with _firing := true } (m + 1)) = true :=
  (c1_fire_delivery wL1 0 2 1 wFire
    (fun k hk => by unfold wL1; rw [if_neg (by omega)])
    (by decide)).2.2 rfl rfl rfl

/-! ### C3: net-zero cancellation -/

lemma AArray.contains_false_iff (a : AArray) (k : EntityId) :
    AArray.contains a k = false ↔ ∀ p ∈ a, (p.1 == k) = false := by
  unfold AArray.contains
  rw [List.any_eq_false]
  constructor
  · intro h p hp
    have h2 := h p hp
    revert h2
    cases (p.1 == k) <;> simp
  · intro h p hp
    rw [h p hp]
    simp

lemma AArray.remove_of_not_contains (a : AArray) (k : EntityId)
    (h : AArray.contains a k = false) : AArray.remove a k = (a, false) := by
  unfold AArray.remove
  rw [h]
  have hall : ∀ p ∈ a, (!(p.1 == k)) = true := fun p hp => by
    rw [(AArray.contains_false_iff a k).mp h p hp]
    rfl
  rw [List.filter_eq_self.mpr hall]

lemma AArray.set_of_not_contains (a : AArray) (k : EntityId) (v : Entity)
    (h : AArray.contains a k = false) : AArray.set a k v = a ++ [(k, v)] := by
  unfold AArray.set
  rw [h]
  simp

lemma AArray.remove_append_single (a : AArray) (k : EntityId) (v : Entity)
    (h : AArray.contains a k = false) :
    AArray.remove (a ++ [(k, v)]) k = (a, true) := by
  unfold AArray.remove
  have hc : AArray.contains (a ++ [(k, v)]) k = true := by
    simp [AArray.contains]
  rw [hc, List.filter_append]
  have hall : ∀ p ∈ a, (!(p.1 == k)) = true := fun p hp => by
    rw [(AArray.contains_false_iff a k).mp h p hp]
    rfl
  rw [List.filter_eq_self.mpr hall]
  simp

lemma AArray.get_append_single (a : AArray) (k : EntityId) (v : Entity)
    (h : AArray.contains a k = false) :
    AArray.get (a ++ [(k, v)]) k = some v := by
  unfold AArray.get
  have hn : a.find? (fun p => p.1 == k) = none := by
    rw [List.find?_eq_none]
    intro p hp
    rw [(AArray.contains_false_iff a k).mp h p hp]
    simp
  rw [List.find?_append, hn]
  simp [List.find?]

lemma AArray.not_mem_values (a : AArray) (e : Entity)
    (hkeys : ∀ p ∈ a, p.1 = p.2.id)
    (h : AArray.contains a e.id = false) : e ∉ AArray.values a := by
  intro hmem
  obtain ⟨p, hp, hpe⟩ := List.mem_map.mp hmem
  have h1 : p.1 = e.id := by rw [hkeys p hp, hpe]
  have h2 : AArray.contains a e.id = true := by
    unfold AArray.contains
    rw [List.any_eq_true]
    exact ⟨p, hp, by simp [h1]⟩
  rw [h2] at h
  exact absurd h (by decide)

lemma addCore_firing (e : Entity) (s : ECState) :
    (addCore e s).1._firing = s._firing := by
  unfold addCore; split <;> rfl

lemma removeByIdCore_firing (id : EntityId) (s : ECState) :
    (removeByIdCore id s).1._firing = s._firing := by
  unfold removeByIdCore
  cases AArray.get s._entities id with
  | none => rfl
  | some e => dsimp only; split <;> rfl

lemma add_of_success (L : Nat → List Op) (n fuel : Nat) (e : Entity)
    (s : ECState) (h : (addCore e s).2 = true) :
    add L n fuel e s =
      ((fireChangedEvent L n fuel (addCore e s).1).1,
        (fireChangedEvent L n fuel (addCore e s).1).2, Except.ok e) := by
  unfold add
  rw [if_pos h]

lemma removeById_of_success (L : Nat → List Op) (n fuel : Nat)
    (id : EntityId) (s : ECState) (h : (removeByIdCore id s).2 = true) :
    removeById L n fuel id s =
      ((fireChangedEvent L n fuel (removeByIdCore id s).1).1,
        (fireChangedEvent L n fuel (removeByIdCore id s).1).2, true) := by
  unfold removeById
  rw [if_pos h]

/-- C3 amended: add(e) immediately followed by remove of the id of e in a
suspended epoch is net zero, provided the id of e is not already present
and not staged (neither as a pending removal, which the add would cancel,
nor as a pending add) when the add occurs: the add-then-remove pair
restores the collection state exactly, and the batch flushed by the
matching resumeEvents therefore lists e in neither the added nor the
removed list. -/
theorem c3_net_zero_amended (L : Nat → List Op) (n fuel : Nat) (e : Entity)
    (s : ECState)
    (h1 : AArray.contains s._entities e.id = false)
    (h2 : AArray.contains s._removedEntities e.id = false)
    (h3 : AArray.contains s._addedEntities e.id = false)
    (h4 : 0 < s._suspendCount)
    (h5 : s._firing = false)
    (hkA : ∀ p ∈ s._addedEntities, p.1 = p.2.id)
    (hkR : ∀ p ∈ s._removedEntities, p.1 = p.2.id) :
    (removeById L n fuel e.id (add L n fuel e s).1).1 = s ∧
    (∀ b, (resumeEvents L n fuel s).2.1.head? = some b →
      e ∉ b.added ∧ e ∉ b.removed) := by
  have hne : s._suspendCount ≠ 0 := by omega
  have hcoreAdd : addCore e s =
      ({ s with
          _entities := s._entities ++ [(e.id, e)]
          _addedEntities := s._addedEntities ++ [(e.id, e)] }, true) := by
    unfold addCore
    rw [if_neg (by rw [h1]; exact Bool.false_ne_true)]
    simp only [AArray.remove_of_not_contains _ _ h2,
      AArray.set_of_not_contains _ _ _ h1, AArray.set_of_not_contains _ _ _ h3,
      Bool.false_eq_true, if_false, ite_false]
  have hfire1 : fireChangedEvent L n fuel (addCore e s).1 = ((addCore e s).1, []) :=
    fireChangedEvent_of_suspended L n fuel (addCore e s).1
      (by rw [addCore_firing]; exact h5)
      (by rw [addCore_suspendCount]; exact hne)
  have hs1 : (add L n fuel e s).1 = (addCore e s).1 := by
    rw [add_of_success L n fuel e s (by rw [hcoreAdd])]
    dsimp only
    rw [hfire1]
  have hcoreRem : removeByIdCore e.id (addCore e s).1 = (s, true) := by
    rw [hcoreAdd]
    unfold removeByIdCore
    simp only [AArray.get_append_single _ _ _ h1,
      AArray.remove_append_single _ _ _ h3, AArray.remove_append_single _ _ _ h1]
    rw [if_pos trivial]
  constructor
  · rw [hs1, removeById_of_success L n fuel e.id (addCore e s).1 (by rw [hcoreRem])]
    dsimp only
    rw [hcoreRem]
    rw [fireChangedEvent_of_suspended L n fuel s h5 hne]
  · intro b hb
    rw [resumeEvents_of_pos L n fuel s hne] at hb
    have hbs := fireChangedEvent_head L n fuel _ b hb
    have hbatch : b = snapshotBatch s := hbs
    rw [hbatch]
    exact ⟨AArray.not_mem_values _ _ hkA h3, AArray.not_mem_values _ _ hkR h2⟩

def c3wState : ECState := ⟨[("a", wE)], [("a", wE)], [], [], 1, true, false, false⟩

/-- Witness for C3 amended: a suspended collection holding entity a with a
staged add of a; adding x and then removing x restores the state, and the
resume batch does not list x. -/
theorem c3_net_zero_amended_witness :
    (removeById L0 0 1 wX.id (add L0 0 1 wX c3wState).1).1 = c3wState ∧
    (∀ b, (resumeEvents L0 0 1 c3wState).2.1.head? = some b →
      wX ∉ b.added ∧ wX ∉ b.removed) :=
  c3_net_zero_amended L0 0 1 wX c3wState (by decide) (by decide) (by decide)
    (by decide) (by decide) (by decide) (by decide)

/-- C3 counterexample preparation: an empty collection receives x and
flushes, is suspended, and the suspended epoch performs removeById x,
add x, removeById x — so the epoch contains an add of x immediately
followed by a remove of x before the matching resumeEvents. -/
def c3trace : ECState :=
  (removeById L0 0 1 "x"
    ((add L0 0 1 wX
      ((removeById L0 0 1 "x"
        (suspendEvents ((add L0 0 1 wX ⟨[], [], [], [], 0, true, false, false⟩).1))).1)).1)).1

/-- C3 counterexample: in the suspended epoch of c3trace the entity x is
added and then immediately removed before the matching resumeEvents, yet
the batch delivered on resume lists x in the removed list — the claim as
stated (for every suspended collection, add(e) then remove(e) in the same
epoch yields a batch listing e in neither list) is false at this input:
the add cancelled a removal staged earlier in the same epoch, so the
later remove staged a removal of e. -/
theorem c3_net_zero_counterexample :
    (resumeEvents L0 0 1 c3trace).2.1 = [Batch.mk [] [wX] []] := by decide

/-! ### C4: the show setter -/

/-- The signals the claim predicts: one isShowing signal per entity whose
effective visibility under the old collection flag w differs from the one
under the new flag v, carrying the new and old values. -/
def showSignals (w v : Bool) (l : List Entity) : List DefSignal :=
  (l.filter (fun e => isShowing w e != isShowing v e)).map
    (fun e => ⟨e.id, isShowing v e, isShowing w e⟩)

/-- The changed staging the handler produces: every affected entity not
staged as added is staged as changed. -/
def showChangedStaging (w v : Bool) (A : AArray) (l : List Entity)
    (C : AArray) : AArray :=
  l.foldl
    (fun c e =>
      if (isShowing w e != isShowing v e) && !(AArray.contains A e.id)
      then AArray.set c e.id e else c) C

lemma showStep_fold (l : List Entity) (w : Bool) :
    ∀ (st : ECState) (sigs : List DefSignal), st._firing = false →
      (l.zip (l.map (fun e => isShowing w e))).foldl showStep (st, sigs) =
        ({ st with _changedEntities :=
            showChangedStaging w st._show st._addedEntities l st._changedEntities },
          sigs ++ showSignals w st._show l) := by
  induction l with
  | nil => intro st sigs _; simp [showChangedStaging, showSignals]
  | cons e l ih =>
    intro st sigs hf
    rw [List.map_cons, List.zip_cons_cons, List.foldl_cons]
    by_cases hc : isShowing w e = isShowing st._show e
    · have hstep : showStep (st, sigs) (e, isShowing w e) = (st, sigs) := by
        unfold showStep; rw [if_pos hc]
      have hcb : (isShowing w e != isShowing st._show e) = false := by
        simp [hc]
      rw [hstep, ih st sigs hf]
      simp [showChangedStaging, showSignals, hcb, hc]
    · have hcb : (isShowing w e != isShowing st._show e) = true :=
        bne_iff_ne.mpr hc
      have hstep : showStep (st, sigs) (e, isShowing w e) =
          (handlerFire (_onEntityDefinitionChanged e st),
            sigs ++ [⟨e.id, isShowing st._show e, isShowing w e⟩]) := by
        unfold showStep; rw [if_neg hc]
      rw [hstep]
      by_cases ha : AArray.contains st._addedEntities e.id = true
      · have hoc : _onEntityDefinitionChanged e st = st := by
          unfold _onEntityDefinitionChanged; rw [if_pos ha]
        have hhf : handlerFire st = st := by
          unfold handlerFire; rw [if_neg (by rw [hf]; exact Bool.false_ne_true)]
        rw [hoc, hhf, ih st _ hf]
        simp [showChangedStaging, showSignals, hcb, ha, hc, List.append_assoc]
      · have ha2 : AArray.contains st._addedEntities e.id = false := by
          revert ha; cases AArray.contains st._addedEntities e.id <;> simp
        have hoc : _onEntityDefinitionChanged e st =
            { st with _changedEntities := AArray.set st._changedEntities e.id e } := by
          unfold _onEntityDefinitionChanged
          rw [if_neg (by rw [ha2]; exact Bool.false_ne_true)]
        have hhf : handlerFire
            { st with _changedEntities := AArray.set st._changedEntities e.id e } =
            { st with _changedEntities := AArray.set st._changedEntities e.id e } := by
          unfold handlerFire; rw [if_neg (by rw [hf]; exact Bool.false_ne_true)]
        rw [hoc, hhf,
          ih { st with _changedEntities := AArray.set st._changedEntities e.id e } _ hf]
        simp [showChangedStaging, showSignals, hcb, ha2, hc, List.append_assoc]

/-- C4 amended: toggling the show flag to a different value synthesizes
one isShowing definition-changed signal per affected entity, computed by
comparing the effective visibility (own show and collection show) before
and after the toggle; the live mapping and the added and removed staging
sets are unchanged, but — contrary to the claim — each signal runs the
subscribed collection change handler, which stages every affected entity
not pending as added into the changed staging set (stated here under an
outer suspension, where the staging alteration is directly observable and
the internal resume flushes nothing). -/
theorem c4_show_toggle_amended (L : Nat → List Op) (n fuel : Nat)
    (value : Bool) (s : ECState) (hv : value ≠ s._show)
    (hsus : 0 < s._suspendCount) (hf : s._firing = false) :
    (setShow L n fuel value s).1 =
      { s with
          _show := value
          _changedEntities := showChangedStaging s._show value
            s._addedEntities (AArray.values s._entities) s._changedEntities } ∧
    (setShow L n fuel value s).2.1 =
      showSignals s._show value (AArray.values s._entities) ∧
    (setShow L n fuel value s).2.2 = [] := by
  unfold setShow suspendEvents
  rw [if_neg hv]
  dsimp only
  rw [showStep_fold (AArray.values s._entities) s._show
    { s with _suspendCount := s._suspendCount + 1, _show := value } [] hf]
  have hne0 : s._suspendCount ≠ 0 := by omega
  simp only [resumeEvents_of_pos, fireChangedEvent_of_suspended, hf, hne0,
    Nat.add_sub_cancel, ne_eq, not_false_eq_true, Nat.succ_ne_zero]
  exact ⟨trivial, List.nil_append _, trivial⟩

def c4state : ECState :=
  ⟨[("a", ⟨"a", true, none⟩)], [], [], [], 1, true, false, false⟩

/-- Witness for C4 amended at a suspended one-entity collection. -/
theorem c4_show_toggle_amended_witness :
    (setShow L0 0 1 false c4state).1 =
      { c4state with
          _show := false
          _changedEntities := showChangedStaging c4state._show false
            c4state._addedEntities (AArray.values c4state._entities)
            c4state._changedEntities } ∧
    (setShow L0 0 1 false c4state).2.1 =
      showSignals c4state._show false (AArray.values c4state._entities) ∧
    (setShow L0 0 1 false c4state).2.2 = [] :=
  c4_show_toggle_amended L0 0 1 false c4state (by decide) (by decide) (by decide)

/-- C4 counterexample: toggling show to a different value on an
externally suspended collection holding one visible entity leaves the
changed staging set altered (the affected entity is staged as changed by
the subscribed handler), refuting the claim that the toggle does not
alter the added, removed and changed staging sets. -/
theorem c4_show_toggle_counterexample :
    (setShow L0 0 1 false c4state).1._changedEntities ≠
      c4state._changedEntities := by decide

/-! ### C6: computeAvailability -/

/-- The start-tightening step of the computeAvailability loop. -/
def startStep (a d : JulianDate) : JulianDate :=
  if d < a ∧ d ≠ Iso8601MinimumValue then d else a

/-- The stop-tightening step of the computeAvailability loop. -/
def stopStep (b d : JulianDate) : JulianDate :=
  if d > b ∧ d ≠ Iso8601MaximumValue then d else b

lemma availStep_none (p : JulianDate × JulianDate) (e : Entity)
    (h : e.availability = none) : availStep p e = p := by
  unfold availStep; rw [h]

lemma availStep_some (p : JulianDate × JulianDate) (e : Entity)
    (iv : TimeInterval) (h : e.availability = some iv) :
    availStep p e = (startStep p.1 iv.start, stopStep p.2 iv.stop) := by
  unfold availStep startStep stopStep
  rw [h]
  by_cases h1 : iv.start < p.1 ∧ iv.start ≠ Iso8601MinimumValue <;>
    by_cases h2 : iv.stop > p.2 ∧ iv.stop ≠ Iso8601MaximumValue <;>
      simp [h1, h2]

lemma foldl_availStep_split (l : List Entity) :
    ∀ (a b : JulianDate),
      l.foldl availStep (a, b) =
        ((l.filterMap (fun e => e.availability)).foldl
            (fun x iv => startStep x iv.start) a,
          (l.filterMap (fun e => e.availability)).foldl
            (fun x iv => stopStep x iv.stop) b) := by
  induction l with
  | nil => intro a b; rfl
  | cons e l ih =>
    intro a b
    rw [List.foldl_cons]
    cases he : e.availability with
    | none =>
      rw [availStep_none _ _ he, List.filterMap_cons_none he]
      exact ih a b
    | some iv =>
      rw [availStep_some _ _ _ he, List.filterMap_cons_some he,
        List.foldl_cons, List.foldl_cons]
      exact ih _ _

lemma foldl_startStep_le_init (ds : List JulianDate) :
    ∀ a, ds.foldl startStep a ≤ a := by
  induction ds with
  | nil => intro a; exact le_refl a
  | cons d ds ih =>
    intro a
    rw [List.foldl_cons]
    refine le_trans (ih (startStep a d)) ?_
    unfold startStep
    split
    · next h => exact le_of_lt h.1
    · exact le_refl a

lemma foldl_startStep_le_mem (ds : List JulianDate) :
    ∀ a d, d ∈ ds → d ≠ Iso8601MinimumValue → ds.foldl startStep a ≤ d := by
  induction ds with
  | nil => intro a d hd _; exact absurd hd (List.not_mem_nil d)
  | cons d0 ds ih =>
    intro a d hd hmin
    rw [List.foldl_cons]
    rcases List.mem_cons.mp hd with h | h
    · subst h
      refine le_trans (foldl_startStep_le_init ds (startStep a d)) ?_
      unfold startStep
      split
      · exact le_refl d
      · next hns =>
        have hnl : ¬(d < a) := fun hlt => hns ⟨hlt, hmin⟩
        exact le_of_not_lt hnl
    · exact ih (startStep a d0) d h hmin

lemma foldl_startStep_mem (ds : List JulianDate) :
    ∀ a, ds.foldl startStep a = a ∨
      (ds.foldl startStep a ∈ ds ∧
        ds.foldl startStep a ≠ Iso8601MinimumValue) := by
  induction ds with
  | nil => intro a; exact Or.inl rfl
  | cons d ds ih =>
    intro a
    rw [List.foldl_cons]
    rcases ih (startStep a d) with h | h
    · rw [h]
      by_cases hc : d < a ∧ d ≠ Iso8601MinimumValue
      · right
        rw [show startStep a d = d from by unfold startStep; rw [if_pos hc]]
        exact ⟨List.mem_cons_self d ds, hc.2⟩
      · left
        rw [show startStep a d = a from by unfold startStep; rw [if_neg hc]]
    · right
      exact ⟨List.mem_cons_of_mem d h.1, h.2⟩

lemma foldl_stopStep_ge_init (ds : List JulianDate) :
    ∀ b, b ≤ ds.foldl stopStep b := by
  induction ds with
  | nil => intro b; exact le_refl b
  | cons d ds ih =>
    intro b
    rw [List.foldl_cons]
    refine le_trans ?_ (ih (stopStep b d))
    unfold stopStep
    split
    · next h => exact le_of_lt h.1
    · exact le_refl b

lemma foldl_stopStep_ge_mem (ds : List JulianDate) :
    ∀ b d, d ∈ ds → d ≠ Iso8601MaximumValue → d ≤ ds.foldl stopStep b := by
  induction ds with
  | nil => intro b d hd _; exact absurd hd (List.not_mem_nil d)
  | cons d0 ds ih =>
    intro b d hd hmax
    rw [List.foldl_cons]
    rcases List.mem_cons.mp hd with h | h
    · subst h
      refine le_trans ?_ (foldl_stopStep_ge_init ds (stopStep b d))
      unfold stopStep
      split
      · exact le_refl d
      · next hns =>
        have hnl : ¬(d > b) := fun hlt => hns ⟨hlt, hmax⟩
        exact le_of_not_lt hnl
    · exact ih (stopStep b d0) d h hmax

lemma foldl_stopStep_mem (ds : List JulianDate) :
    ∀ b, ds.foldl stopStep b = b ∨
      (ds.foldl stopStep b ∈ ds ∧
        ds.foldl stopStep b ≠ Iso8601MaximumValue) := by
  induction ds with
  | nil => intro b; exact Or.inl rfl
  | cons d ds ih =>
    intro b
    rw [List.foldl_cons]
    rcases ih (stopStep b d) with h | h
    · rw [h]
      by_cases hc : d > b ∧ d ≠ Iso8601MaximumValue
      · right
        rw [show stopStep b d = d from by unfold stopStep; rw [if_pos hc]]
        exact ⟨List.mem_cons_self d ds, hc.2⟩
      · left
        rw [show stopStep b d = b from by unfold stopStep; rw [if_neg hc]]
    · right
      exact ⟨List.mem_cons_of_mem d h.1, h.2⟩

/-- C6: computeAvailability returns the tightest interval spanning the
entity availabilities with sentinel endpoints ignored: the result start
is a lower bound of every non-sentinel availability start (an entity
whose availability starts at the unbounded-past sentinel is excluded from
the fold and so cannot tighten the aggregate start) and is itself one of
those starts or the unbounded-past sentinel; symmetrically for the stop
and the unbounded-future sentinel; and when no entity restricts time
(no defined availability) the result is the fully unbounded interval.
The bounds hypothesis states that all availability endpoints lie between
the two sentinels. -/
theorem c6_computeAvailability (s : ECState)
    (hb : ∀ iv ∈ (AArray.values s._entities).filterMap (fun e => e.availability),
      Iso8601MinimumValue ≤ iv.start ∧ iv.stop ≤ Iso8601MaximumValue) :
    ((∀ d ∈ ((AArray.values s._entities).filterMap (fun e => e.availability)).map
        TimeInterval.start, d ≠ Iso8601MinimumValue →
        (computeAvailability s).start ≤ d) ∧
      ((computeAvailability s).start = Iso8601MinimumValue ∨
        (computeAvailability s).start ∈
          ((AArray.values s._entities).filterMap (fun e => e.availability)).map
            TimeInterval.start)) ∧
    ((∀ d ∈ ((AArray.values s._entities).filterMap (fun e => e.availability)).map
        TimeInterval.stop, d ≠ Iso8601MaximumValue →
        d ≤ (computeAvailability s).stop) ∧
      ((computeAvailability s).stop = Iso8601MaximumValue ∨
        (computeAvailability s).stop ∈
          ((AArray.values s._entities).filterMap (fun e => e.availability)).map
            TimeInterval.stop)) ∧
    ((AArray.values s._entities).filterMap (fun e => e.availability) = [] →
      computeAvailability s = ⟨Iso8601MinimumValue, Iso8601MaximumValue⟩) := by
  set ivs := (AArray.values s._entities).filterMap (fun e => e.availability) with hivs
  have hstart : (computeAvailability s).start =
      (if (ivs.map TimeInterval.start).foldl startStep Iso8601MaximumValue =
          Iso8601MaximumValue
        then Iso8601MinimumValue
        else (ivs.map TimeInterval.start).foldl startStep Iso8601MaximumValue) := by
    unfold computeAvailability
    rw [foldl_availStep_split]
    dsimp only
    rw [List.foldl_map, hivs]
  have hstop : (computeAvailability s).stop =
      (if (ivs.map TimeInterval.stop).foldl stopStep Iso8601MinimumValue =
          Iso8601MinimumValue
        then Iso8601MaximumValue
        else (ivs.map TimeInterval.stop).foldl stopStep Iso8601MinimumValue) := by
    unfold computeAvailability
    rw [foldl_availStep_split]
    dsimp only
    rw [List.foldl_map, hivs]
  refine ⟨⟨?_, ?_⟩, ⟨?_, ?_⟩, ?_⟩
  · intro d hd hdm
    rw [hstart]
    split
    · obtain ⟨iv, hiv, hde⟩ := List.mem_map.mp hd
      rw [← hde]
      exact (hb iv hiv).1
    · exact foldl_startStep_le_mem _ _ d hd hdm
  · rw [hstart]
    split
    · exact Or.inl rfl
    · next hne =>
      rcases foldl_startStep_mem (ivs.map TimeInterval.start)
          Iso8601MaximumValue with h | h
      · exact absurd h hne
      · exact Or.inr h.1
  · intro d hd hdm
    rw [hstop]
    split
    · obtain ⟨iv, hiv, hde⟩ := List.mem_map.mp hd
      rw [← hde]
      exact (hb iv hiv).2
    · exact foldl_stopStep_ge_mem _ _ d hd hdm
  · rw [hstop]
    split
    · exact Or.inl rfl
    · next hne =>
      rcases foldl_stopStep_mem (ivs.map TimeInterval.stop)
          Iso8601MinimumValue with h | h
      · exact absurd h hne
      · exact Or.inr h.1
  · intro h0
    have h1 : (computeAvailability s).start = Iso8601MinimumValue := by
      rw [hstart, h0]
      simp
    have h2 : (computeAvailability s).stop = Iso8601MaximumValue := by
      rw [hstop, h0]
      simp
    rw [show computeAvailability s =
      ⟨(computeAvailability s).start, (computeAvailability s).stop⟩ from rfl,
      h1, h2]

def c6state : ECState :=
  ⟨[("a", ⟨"a", true, some ⟨5, 20⟩⟩),
    ("b", ⟨"b", true, some ⟨Iso8601MinimumValue, 10⟩⟩)],
    [], [], [], 0, true, false, false⟩

/-- Witness for C6 at a collection mixing a bounded availability and one
starting at the unbounded-past sentinel: the aggregate is the bounded
interval, and the characterization theorem applies. -/
theorem c6_computeAvailability_witness :
    computeAvailability c6state = ⟨5, 20⟩ ∧
    (((∀ d ∈ ((AArray.values c6state._entities).filterMap (fun e => e.availability)).map
        TimeInterval.start, d ≠ Iso8601MinimumValue →
        (computeAvailability c6state).start ≤ d) ∧
      ((computeAvailability c6state).start = Iso8601MinimumValue ∨
        (computeAvailability c6state).start ∈
          ((AArray.values c6state._entities).filterMap (fun e => e.availability)).map
            TimeInterval.start)) ∧
    ((∀ d ∈ ((AArray.values c6state._entities).filterMap (fun e => e.availability)).map
        TimeInterval.stop, d ≠ Iso8601MaximumValue →
        d ≤ (computeAvailability c6state).stop) ∧
      ((computeAvailability c6state).stop = Iso8601MaximumValue ∨
        (computeAvailability c6state).stop ∈
          ((AArray.values c6state._entities).filterMap (fun e => e.availability)).map
            TimeInterval.stop)) ∧
    ((AArray.values c6state._entities).filterMap (fun e => e.availability) = [] →
      computeAvailability c6state = ⟨Iso8601MinimumValue, Iso8601MaximumValue⟩)) :=
  ⟨by decide, c6_computeAvailability c6state (by decide)⟩
